import Mathlib

set_option maxRecDepth 100000

/-!
# Formal model of the firmware-image signing script `elf_sign.py`

This file embeds the core of the ELF signing pipeline
(`third_party/nest/terbium/scripts/elf_sign.py`) as executable Lean
definitions and proves properties of them:

* `elf_read_le`, `parse_sections`, `resolve_name` — the structural reader
  that validates the ELF header and reads the section table
  (`elf_update_section`, lines 63–118 of the source);
* `find_section_index`, `elf_update_section` — section lookup by name and
  the in-place patch of the section contents (lines 120–150);
* `int_to_bytearray`, `local_signature_block` — the big-endian fixed-width
  integer dump and the local-key signature block assembly (lines 154–161
  and 264–267);
* `unhexlify`, `remote_signature_from_body`, `remote_sign` — the
  remote-service response handling (lines 203–234).

Containers and byte strings are modelled as `List Nat` (Python `bytes`
values, every element < 256 in real inputs).  A Python `AssertionError`
becomes `ScriptError.assertFail msg`, a Python `IndexError` from sequence
indexing becomes `ScriptError.indexError`, and a `binascii.Error` becomes
`ScriptError.binasciiError`.  A function that can raise returns
`Except ScriptError _`.
-/

/-- Errors the script can raise: a failed `assert` with its message, an
`IndexError` from indexing past the end of a sequence, a
`binascii.Error` from `unhexlify`, and an `AttributeError` from an invalid
attribute access (raised at line 207, see `remote_sign`). -/
inductive ScriptError where
  | assertFail (msg : String)
  | indexError
  | binasciiError
  | attributeError
deriving DecidableEq, Repr

instance {ε α : Type} [DecidableEq ε] [DecidableEq α] : DecidableEq (Except ε α) :=
  fun a b =>
    match a, b with
    | .error x, .error y =>
      if h : x = y then isTrue (by rw [h]) else isFalse (by intro hc; cases hc; exact h rfl)
    | .error _, .ok _ => isFalse (by intro h; cases h)
    | .ok _, .error _ => isFalse (by intro h; cases h)
    | .ok x, .ok y =>
      if h : x = y then isTrue (by rw [h]) else isFalse (by intro hc; cases hc; exact h rfl)

/-- `sectionTuple = collections.namedtuple("sectionTuple", "name_offset, name, offset, size")`.
The `name` field holds the raw bytes of the resolved section name. -/
structure SectionTuple where
  name_offset : Nat
  name : List Nat
  offset : Nat
  size : Nat
deriving DecidableEq, Repr

/-- `elf_read_le(buf, offset, n)`: read an `n`-byte little-endian value.
The source loops `val = (val << 8) | buf[offset + n - 1 - i]` from the
highest byte down; unfolding that loop gives the nesting below.  Indexing
past the end of `buf` raises `IndexError`, modelled by `none`. -/
def elf_read_le (buf : List Nat) (offset : Nat) : Nat → Option Nat
  | 0 => some 0
  | n + 1 =>
    match elf_read_le buf (offset + 1) n, buf.get? offset with
    | some hi, some b => some ((hi <<< 8) ||| b)
    | _, _ => none

/-- Name lookup for one section (line 115 of the source):
`output[(sections[e_shstrndx].offset + sections[i].name_offset):].partition(b'\x00')[0]`.
Python slicing from a start index up to the END of the byte string, then
taking the part before the first zero byte, is `drop` then `takeWhile`. -/
def resolve_name (output : List Nat) (strtabOffset nameOffset : Nat) : List Nat :=
  (output.drop (strtabOffset + nameOffset)).takeWhile (fun b => b ≠ 0)

/-- Read one section-table entry at byte offset `base` (lines 97–107):
`sh_name` at `base+0`, `sh_offset` at `base+16`, `sh_size` at `base+20`,
then `assert (sh_offset + sh_size) <= elfSize`. -/
def read_one_section (output : List Nat) (elfSize base : Nat) :
    Except ScriptError SectionTuple :=
  match elf_read_le output (base + 0) 4, elf_read_le output (base + 16) 4,
      elf_read_le output (base + 20) 4 with
  | some sh_name, some sh_offset, some sh_size =>
    if sh_offset + sh_size ≤ elfSize then
      .ok ⟨sh_name, [], sh_offset, sh_size⟩
    else
      .error (.assertFail "Section data runs past end of file")
  | _, _, _ => .error .indexError

/-- The loop `for i in range(0, e_shnum)` reading the section table
(lines 96–107), ascending: entry `i` lives at `e_shoff + i * e_shentsize`. -/
def read_sections (output : List Nat) (elfSize e_shoff e_shentsize : Nat) :
    Nat → Except ScriptError (List SectionTuple)
  | 0 => .ok []
  | n + 1 =>
    match read_sections output elfSize e_shoff e_shentsize n with
    | .error e => .error e
    | .ok rest =>
      match read_one_section output elfSize (e_shoff + n * e_shentsize) with
      | .error e => .error e
      | .ok s => .ok (rest ++ [s])

/-- The name-resolution loop (lines 113–118).  It runs only when
`e_shnum > 0`; each iteration indexes `sections[e_shstrndx]`, which raises
`IndexError` when `e_shstrndx` is not a valid index.  Only the `name`
field of each tuple is replaced, so reading the string-table tuple fresh
each iteration always yields the same `offset`. -/
def resolve_section_names (output : List Nat) (e_shnum e_shstrndx : Nat)
    (sections : List SectionTuple) : Except ScriptError (List SectionTuple) :=
  if e_shnum = 0 then .ok sections
  else
    match sections.get? e_shstrndx with
    | none => .error .indexError
    | some strtab =>
      .ok (sections.map fun s =>
        { s with name := resolve_name output strtab.offset s.name_offset })

/-- Header validation and section-table reading of `elf_update_section`
(lines 73–118).  Successive `assert`s on magic, class, endianness byte,
version, section-table bounds and string-table index, then the two loops.
NOTE (faithful to the source): line 79 reads `ei_data = output[5]` but the
assert re-tests `ei_class == 1`, so the endianness byte is read and then
ignored; and line 92 checks `e_shstrndx <= e_shnum` (not `<`). -/
def parse_sections (output : List Nat) : Except ScriptError (List SectionTuple) :=
  -- `elfSize = os.stat(elfPath).st_size` is the length of the file contents
  if output.take 4 ≠ [0x7f, 0x45, 0x4c, 0x46] then
    .error (.assertFail "Magic number does not match")
  else
    match output.get? 4 with
    | none => .error .indexError
    | some ei_class =>
      if ei_class ≠ 1 then .error (.assertFail "Only 32-bit ELF files are supported")
      else
        match output.get? 5 with
        | none => .error .indexError
        | some _ei_data =>
          -- source bug: the assert guarding this message tests `ei_class`, not `ei_data`
          if ei_class ≠ 1 then .error (.assertFail "Only LE ELF files are supported")
          else
            match output.get? 6 with
            | none => .error .indexError
            | some ei_version =>
              if ei_version ≠ 1 then .error (.assertFail "Only ELF version 1 is supported")
              else
                match elf_read_le output 0x20 4, elf_read_le output 0x2e 2,
                    elf_read_le output 0x30 2, elf_read_le output 0x32 2 with
                | some e_shoff, some e_shentsize, some e_shnum, some e_shstrndx =>
                  if ¬ (e_shoff + e_shnum * e_shentsize ≤ output.length) then
                    .error (.assertFail "Section header runs past end of file")
                  else if ¬ (e_shstrndx ≤ e_shnum) then
                    .error (.assertFail "Section name index > number of sections")
                  else
                    match read_sections output output.length e_shoff e_shentsize e_shnum with
                    | .error e => .error e
                    | .ok sections => resolve_section_names output e_shnum e_shstrndx sections
                | _, _, _, _ => .error .indexError

/-- The lookup loop (lines 121–131): `sectionIndex` starts at `-1` and is
overwritten by every index whose name equals `sectionName`, so the LAST
match in table order wins. -/
def find_last_aux (target : List Nat) : List SectionTuple → Nat → Int → Int
  | [], _, acc => acc
  | s :: rest, i, acc =>
    find_last_aux target rest (i + 1) (if s.name = target then (i : Int) else acc)

/-- `sectionIndex` after the lookup loop of `elf_update_section`. -/
def find_section_index (sections : List SectionTuple) (target : List Nat) : Int :=
  find_last_aux target sections 0 (-1)

/-- Index of the last element whose `name` equals `target`
(specification of the lookup loop, used to reason about `find_last_aux`). -/
def last_match (target : List Nat) : List SectionTuple → Option Nat
  | [] => none
  | s :: rest =>
    match last_match target rest with
    | some j => some (j + 1)
    | none => if s.name = target then some 0 else none

/-- `elf_update_section(elfPath, sectionName, sectionData)` (lines 63–150),
from the already-read file contents `output` to the bytes written back:
parse and validate, find the target section (last match), check the exact
size, and splice
`output[0:offset] + sectionData + output[offset+size:]`. -/
def elf_update_section (output sectionName sectionData : List Nat) :
    Except ScriptError (List Nat) :=
  match parse_sections output with
  | .error e => .error e
  | .ok sections =>
    let sectionIndex := find_section_index sections sectionName
    if sectionIndex < 0 then .error (.assertFail "Section not found in ELF")
    else
      match sections.get? sectionIndex.toNat with
      | none => .error .indexError
      | some sec =>
        if sectionData.length ≠ sec.size then
          .error (.assertFail "Size of signature data file does not match size of section")
        else
          .ok (output.take sec.offset ++ sectionData ++ output.drop (sec.offset + sec.size))

/-- Effect of a run on the file on disk: the source only opens the file
for writing (line 148) after every assert has passed, so on any error the
disk contents are unchanged. -/
def elf_update_section_disk (disk sectionName sectionData : List Nat) : List Nat :=
  match elf_update_section disk sectionName sectionData with
  | .ok newContents => newContents
  | .error _ => disk

/-- The loop of `int_to_bytearray` (lines 155–158):
`res[length - (1 + i)] = val & 0xff; val = (val & ~0xff) >> 8`.
For a nonnegative Python int, `val & 0xff = val % 256` and
`(val & ~0xff) >> 8 = val >>> 8`.  Returns the filled byte array together
with the value of `val` after the loop. -/
def i2b_loop : Nat → Nat → List Nat × Nat
  | val, 0 => ([], val)
  | val, n + 1 =>
    let p := i2b_loop (val >>> 8) n
    (p.1 ++ [val % 256], p.2)

/-- `int_to_bytearray(val, length)` (lines 154–161): big-endian fixed-width
dump, then `assert val == 0` — the value must fit in `length` bytes. -/
def int_to_bytearray (val length : Nat) : Except ScriptError (List Nat) :=
  let p := i2b_loop val length
  if p.2 = 0 then .ok p.1
  else .error (.assertFail "Dumped int to C array, but length not big enough")

/-- The local-key signature block (lines 264–267):
`SIGNATURE_ECDSA_SHA256_SECP224R1 + b'\x00\x00\x00' + int_to_bytearray(r, int(224/8)) + int_to_bytearray(s, int(224/8))`. -/
def local_signature_block (r s : Nat) : Except ScriptError (List Nat) :=
  match int_to_bytearray r (224 / 8) with
  | .error e => .error e
  | .ok rb =>
    match int_to_bytearray s (224 / 8) with
    | .error e => .error e
    | .ok sb => .ok (1 :: (0 :: 0 :: 0 :: (rb ++ sb)))

/-- Interpretation of a byte string as a big-endian unsigned integer. -/
def bytes_to_nat_be (bs : List Nat) : Nat :=
  bs.foldl (fun acc b => acc * 256 + b) 0

/-- Value of one hexadecimal digit, as accepted by `binascii.unhexlify`. -/
def hex_digit_value (c : Char) : Option Nat :=
  if '0' ≤ c ∧ c ≤ '9' then some (c.toNat - 48)
  else if 'a' ≤ c ∧ c ≤ 'f' then some (c.toNat - 87)
  else if 'A' ≤ c ∧ c ≤ 'F' then some (c.toNat - 55)
  else none

/-- `binascii.unhexlify`: pairs of hex digits to bytes; an odd-length or
non-hex input raises `binascii.Error`, modelled by `none`. -/
def unhexlify : List Char → Option (List Nat)
  | [] => some []
  | [_] => none
  | a :: b :: rest =>
    match hex_digit_value a, hex_digit_value b, unhexlify rest with
    | some hi, some lo, some tail => some ((16 * hi + lo) :: tail)
    | _, _, _ => none

/-- Remote-path response handling (lines 225–234): first
`assert len(signature) == 2 * 60`, then `bytearray(binascii.unhexlify(signature))`. -/
def remote_signature_from_body (body : List Char) : Except ScriptError (List Nat) :=
  if body.length = 2 * 60 then
    match unhexlify body with
    | some sig => .ok sig
    | none => .error .binasciiError
  else .error (.assertFail "Signature returned by service has wrong length")

/-- Observable events of the remote signing path.  `curl.perform()`
(line 217) would emit `networkRequest`, but that call is unreachable in
the source (see `remote_sign`), so no run ever emits an event. -/
inductive SignEvent where
  | networkRequest (url : String)
deriving DecidableEq, Repr

/-- The remote signing path of `main` (lines 196–234), with the network
side effect made explicit as an event trace.  The source asserts
`'auth' in os.environ` (line 204); when the credential is absent that
assert aborts the run before anything else happens.  When the credential
is present, line 207 executes `buffer = StringIO.StringIO()` — but line 28
imported the CLASS with `from io import StringIO`, so the attribute access
`StringIO.StringIO` raises `AttributeError` unconditionally.  That crash
sits before `pycurl.Curl()` (line 208) and `curl.perform()` (line 217), so
the cURL setup, the HTTP-status assert (line 223) and the response
handling (lines 225–234, embedded as `remote_signature_from_body`) are
dead code and no network request is ever issued on either path. -/
def remote_sign (url : String) (env_auth : Option String) (http_code : Nat)
    (body : List Char) : Except ScriptError (List Nat) × List SignEvent :=
  match env_auth with
  | none =>
    (.error (.assertFail "Signing service credentials auth not exported from environment"), [])
  | some _ =>
    -- line 207: `buffer = StringIO.StringIO()` raises AttributeError before
    -- any cURL object exists; `url`, `http_code` and `body` are never consulted
    (.error .attributeError, [])

/-- Modelled from the spec (§4.1): the name scan "stop[s] at string-table
bounds".  This is the bounded variant the spec describes, to be compared
with `resolve_name`, which the source actually implements. -/
def resolve_name_bounded (output : List Nat) (strtabOffset strtabSize nameOffset : Nat) :
    List Nat :=
  (((output.drop (strtabOffset + nameOffset)).take (strtabSize - nameOffset)).takeWhile
    (fun b => b ≠ 0))

/-!
## Concrete test containers

`testElf` is a minimal well-formed 32-bit little-endian ELF image,
110 bytes long:
* bytes 0–51: ELF header with magic `\x7fELF`, `EI_CLASS = 1`,
  `EI_DATA = 1`, `EI_VERSION = 1`, `e_shoff = 62`, `e_shentsize = 24`,
  `e_shnum = 2`, `e_shstrndx = 0`;
* bytes 52–57: the string table (section 0): `\0.sig\0`;
* bytes 58–61: the target section (section 1, named `.sig`), four zero bytes;
* bytes 62–109: the two 24-byte section-header entries.
-/

def testElf : List Nat :=
  [127, 69, 76, 70, 1, 1, 1] ++ List.replicate 25 0 ++
  [62, 0, 0, 0] ++ List.replicate 10 0 ++ [24, 0, 2, 0, 0, 0] ++
  [0, 46, 115, 105, 103, 0] ++
  [0, 0, 0, 0] ++
  ([0, 0, 0, 0] ++ List.replicate 12 0 ++ [52, 0, 0, 0, 6, 0, 0, 0]) ++
  ([1, 0, 0, 0] ++ List.replicate 12 0 ++ [58, 0, 0, 0, 4, 0, 0, 0])

/-- The UTF-8 bytes of the section name `.sig`. -/
def sigNameBytes : List Nat := [46, 115, 105, 103]

/-- The section list `parse_sections` produces for `testElf`. -/
def testSections : List SectionTuple :=
  [⟨0, [], 52, 6⟩, ⟨1, sigNameBytes, 58, 4⟩]

/-- Replacement data of the exact section size (4 bytes). -/
def testData : List Nat := [9, 9, 9, 9]

/-- The container after patching section `.sig` of `testElf` with `testData`. -/
def testPatched : List Nat := testElf.take 58 ++ testData ++ testElf.drop 62

/-- `testElf` with the endianness byte `EI_DATA` (offset 5) set to 2,
which denotes a big-endian image. -/
def testElfBE : List Nat := testElf.set 5 2

/-- `testElf` with `e_shstrndx` set to 2, equal to the section count
`e_shnum = 2` — one past the last valid section index. -/
def testElfStrndxEq : List Nat := testElf.set 50 2

/-- `testElf` with the string table not zero-terminated: its last byte
(index 57) becomes `0x58` and the first byte after the string table
(index 58, inside the `.sig` section) becomes `0x59`, followed by a zero
at index 59. -/
def testElfOverrun : List Nat := (testElf.set 57 88).set 58 89

/-- The section list `parse_sections` produces for `testElfOverrun`:
the resolved name of section 1 runs past the string-table bounds. -/
def testOverrunSections : List SectionTuple :=
  [⟨0, [], 52, 6⟩, ⟨1, [46, 115, 105, 103, 88, 89], 58, 4⟩]

/-- A container with two sections both named `.sig` (138 bytes):
string table at 52 (size 6), first `.sig` section at 58 (size 4), second
`.sig` section at 62 (size 4), section-header table of three entries at 66,
`e_shstrndx = 0`. -/
def testElfDup : List Nat :=
  [127, 69, 76, 70, 1, 1, 1] ++ List.replicate 25 0 ++
  [66, 0, 0, 0] ++ List.replicate 10 0 ++ [24, 0, 3, 0, 0, 0] ++
  [0, 46, 115, 105, 103, 0] ++
  [0, 0, 0, 0] ++ [0, 0, 0, 0] ++
  ([0, 0, 0, 0] ++ List.replicate 12 0 ++ [52, 0, 0, 0, 6, 0, 0, 0]) ++
  ([1, 0, 0, 0] ++ List.replicate 12 0 ++ [58, 0, 0, 0, 4, 0, 0, 0]) ++
  ([1, 0, 0, 0] ++ List.replicate 12 0 ++ [62, 0, 0, 0, 4, 0, 0, 0])

/-- The section list `parse_sections` produces for `testElfDup`. -/
def testDupSections : List SectionTuple :=
  [⟨0, [], 52, 6⟩, ⟨1, sigNameBytes, 58, 4⟩, ⟨1, sigNameBytes, 62, 4⟩]

/-!
## Helper lemmas
-/

lemma read_one_section_bounds {output : List Nat} {elfSize base : Nat} {s : SectionTuple}
    (h : read_one_section output elfSize base = .ok s) :
    s.offset + s.size ≤ elfSize := by
  unfold read_one_section at h
  split at h
  · split at h
    · cases h
      simpa using ‹_›
    · cases h
  · cases h

lemma read_sections_length {output : List Nat} {elfSize e_shoff e_shentsize : Nat} :
    ∀ {n : Nat} {l : List SectionTuple},
      read_sections output elfSize e_shoff e_shentsize n = .ok l → l.length = n := by
  intro n
  induction n with
  | zero => intro l h; cases h; rfl
  | succ m ih =>
    intro l h
    rw [show read_sections output elfSize e_shoff e_shentsize (m + 1) =
        (match read_sections output elfSize e_shoff e_shentsize m with
         | .error e => .error e
         | .ok rest =>
           match read_one_section output elfSize (e_shoff + m * e_shentsize) with
           | .error e => .error e
           | .ok s => .ok (rest ++ [s])) from rfl] at h
    cases hrest : read_sections output elfSize e_shoff e_shentsize m with
    | error e => rw [hrest] at h; cases h
    | ok rest =>
      rw [hrest] at h
      cases hone : read_one_section output elfSize (e_shoff + m * e_shentsize) with
      | error e => rw [hone] at h; cases h
      | ok s =>
        rw [hone] at h
        cases h
        simp [List.length_append, ih hrest]

lemma read_sections_bounds {output : List Nat} {elfSize e_shoff e_shentsize : Nat} :
    ∀ {n : Nat} {l : List SectionTuple},
      read_sections output elfSize e_shoff e_shentsize n = .ok l →
      ∀ s ∈ l, s.offset + s.size ≤ elfSize := by
  intro n
  induction n with
  | zero => intro l h s hs; cases h; cases hs
  | succ m ih =>
    intro l h s hs
    rw [show read_sections output elfSize e_shoff e_shentsize (m + 1) =
        (match read_sections output elfSize e_shoff e_shentsize m with
         | .error e => .error e
         | .ok rest =>
           match read_one_section output elfSize (e_shoff + m * e_shentsize) with
           | .error e => .error e
           | .ok t => .ok (rest ++ [t])) from rfl] at h
    cases hrest : read_sections output elfSize e_shoff e_shentsize m with
    | error e => rw [hrest] at h; cases h
    | ok rest =>
      rw [hrest] at h
      cases hone : read_one_section output elfSize (e_shoff + m * e_shentsize) with
      | error e => rw [hone] at h; cases h
      | ok t =>
        rw [hone] at h
        cases h
        rcases List.mem_append.mp hs with hmem | hmem
        · exact ih hrest s hmem
        · rcases List.mem_singleton.mp hmem with rfl
          exact read_one_section_bounds hone

lemma resolve_section_names_offset_size {output : List Nat} {e_shnum e_shstrndx : Nat}
    {l sections : List SectionTuple}
    (h : resolve_section_names output e_shnum e_shstrndx l = .ok sections) :
    ∀ s ∈ sections, ∃ t ∈ l, s.offset = t.offset ∧ s.size = t.size := by
  unfold resolve_section_names at h
  split at h
  · cases h
    intro s hs
    exact ⟨s, hs, rfl, rfl⟩
  · split at h
    · cases h
    · cases h
      intro s hs
      rcases List.mem_map.mp hs with ⟨t, ht, rfl⟩
      exact ⟨t, ht, rfl, rfl⟩

lemma parse_sections_bounds {output : List Nat} {sections : List SectionTuple}
    (hp : parse_sections output = .ok sections) :
    ∀ s ∈ sections, s.offset + s.size ≤ output.length := by
  unfold parse_sections at hp
  repeat' split at hp
  all_goals try exact absurd hp (by simp)
  rename_i l hread
  intro s hs
  rcases resolve_section_names_offset_size hp s hs with ⟨t, ht, ho, hsz⟩
  rw [ho, hsz]
  exact read_sections_bounds hread t ht

lemma find_last_aux_eq (target : List Nat) :
    ∀ (l : List SectionTuple) (i : Nat) (acc : Int),
      find_last_aux target l i acc =
        (match last_match target l with
         | some j => ((i + j : Nat) : Int)
         | none => acc) := by
  intro l
  induction l with
  | nil => intro i acc; rfl
  | cons s rest ih =>
    intro i acc
    show find_last_aux target rest (i + 1) (if s.name = target then (i : Int) else acc) = _
    rw [ih]
    show _ = (match (match last_match target rest with
      | some j => some (j + 1)
      | none => if s.name = target then some 0 else none) with
      | some j => ((i + j : Nat) : Int)
      | none => acc)
    cases hr : last_match target rest with
    | some j =>
      show ((i + 1 + j : Nat) : Int) = ((i + (j + 1) : Nat) : Int)
      congr 1
      omega
    | none =>
      by_cases hs : s.name = target
      · simp [hs]
      · simp [hs]

lemma find_section_index_eq (sections : List SectionTuple) (target : List Nat) :
    find_section_index sections target =
      (match last_match target sections with
       | some j => (j : Int)
       | none => -1) := by
  unfold find_section_index
  rw [find_last_aux_eq]
  cases last_match target sections <;> simp

lemma last_match_none_iff (target : List Nat) :
    ∀ (l : List SectionTuple), last_match target l = none ↔ ∀ s ∈ l, s.name ≠ target := by
  intro l
  induction l with
  | nil => simp [last_match]
  | cons s rest ih =>
    show (match last_match target rest with
      | some j => some (j + 1)
      | none => if s.name = target then some 0 else none) = none ↔ _
    cases hr : last_match target rest with
    | some j =>
      simp only [reduceCtorEq, false_iff]
      intro hall
      have : last_match target rest = none := (ih.mpr fun t ht => hall t (List.mem_cons_of_mem s ht))
      rw [hr] at this
      cases this
    | none =>
      by_cases hs : s.name = target
      · simp [hs]
      · rw [if_neg hs]
        constructor
        · intro _ t ht
          rcases List.mem_cons.mp ht with rfl | hmem
          · exact hs
          · exact (ih.mp hr) t hmem
        · intro _; rfl

lemma last_match_is_match (target : List Nat) :
    ∀ (l : List SectionTuple) (j : Nat), last_match target l = some j →
      ∃ s, l.get? j = some s ∧ s.name = target := by
  intro l
  induction l with
  | nil => intro j h; cases h
  | cons s rest ih =>
    intro j h
    have h' : (match last_match target rest with
      | some j => some (j + 1)
      | none => if s.name = target then some 0 else none) = some j := h
    cases hr : last_match target rest with
    | some j' =>
      rw [hr] at h'
      cases h'
      rcases ih j' hr with ⟨t, ht, hname⟩
      exact ⟨t, by simpa [List.get?_cons_succ] using ht, hname⟩
    | none =>
      rw [hr] at h'
      by_cases hs : s.name = target
      · rw [if_pos hs] at h'
        cases h'
        exact ⟨s, rfl, hs⟩
      · rw [if_neg hs] at h'
        cases h'

lemma last_match_maximal (target : List Nat) :
    ∀ (l : List SectionTuple) (j : Nat), last_match target l = some j →
      ∀ k t, l.get? k = some t → j < k → t.name ≠ target := by
  intro l
  induction l with
  | nil => intro j h; cases h
  | cons s rest ih =>
    intro j h k t hk hlt
    have h' : (match last_match target rest with
      | some j => some (j + 1)
      | none => if s.name = target then some 0 else none) = some j := h
    cases hr : last_match target rest with
    | some j' =>
      rw [hr] at h'
      cases h'
      match k, hlt with
      | k' + 1, hlt =>
        exact ih j' hr k' t (by simpa using hk) (by omega)
    | none =>
      rw [hr] at h'
      by_cases hs : s.name = target
      · rw [if_pos hs] at h'
        cases h'
        match k, hlt with
        | k' + 1, _ =>
          have ht : t ∈ rest := List.get?_mem (by simpa using hk)
          exact (last_match_none_iff target rest).mp hr t ht
      · rw [if_neg hs] at h'
        cases h'

lemma last_match_complete (target : List Nat) :
    ∀ (l : List SectionTuple) (i : Nat) (s : SectionTuple),
      l.get? i = some s → s.name = target →
      (∀ j t, l.get? j = some t → i < j → t.name ≠ target) →
      last_match target l = some i := by
  intro l
  induction l with
  | nil => intro i s h; cases h
  | cons hd rest ih =>
    intro i s hget hname hmax
    show (match last_match target rest with
      | some j => some (j + 1)
      | none => if hd.name = target then some 0 else none) = some i
    cases i with
    | zero =>
      have hhd : hd = s := by simpa using hget
      have hrest : last_match target rest = none := by
        rw [last_match_none_iff]
        intro t ht
        rcases List.get?_of_mem ht with ⟨k, hk⟩
        exact hmax (k + 1) t (by simpa using hk) (by omega)
      rw [hrest, hhd, if_pos hname]
    | succ i' =>
      have hrest : last_match target rest = some i' := by
        apply ih i' s (by simpa using hget) hname
        intro j t hj hlt
        exact hmax (j + 1) t (by simpa using hj) (by omega)
      rw [hrest]

lemma elf_update_section_of_found {output name : List Nat} (data : List Nat)
    {sections : List SectionTuple} {i : Nat} {sec : SectionTuple}
    (hp : parse_sections output = .ok sections)
    (hf : find_section_index sections name = (i : Int))
    (hi : sections.get? i = some sec) :
    elf_update_section output name data =
      (if data.length ≠ sec.size then
        .error (.assertFail "Size of signature data file does not match size of section")
      else
        .ok (output.take sec.offset ++ data ++ output.drop (sec.offset + sec.size))) := by
  unfold elf_update_section
  rw [hp]
  show (if find_section_index sections name < 0 then _ else _) = _
  rw [hf]
  rw [if_neg (by omega)]
  rw [show ((i : Int)).toNat = i from Int.toNat_natCast i, hi]

lemma elf_update_section_not_found {output name data : List Nat}
    {sections : List SectionTuple}
    (hp : parse_sections output = .ok sections)
    (hf : find_section_index sections name = -1) :
    elf_update_section output name data = .error (.assertFail "Section not found in ELF") := by
  unfold elf_update_section
  rw [hp]
  show (if find_section_index sections name < 0 then _ else _) = _
  rw [hf]
  rw [if_pos (by omega)]

lemma patched_length {output data : List Nat} {o sz : Nat}
    (hb : o + sz ≤ output.length) (hd : data.length = sz) :
    (output.take o ++ data ++ output.drop (o + sz)).length = output.length := by
  simp only [List.length_append, List.length_take, List.length_drop]
  omega

lemma patched_get?_before {output data : List Nat} {o sz : Nat}
    (hb : o + sz ≤ output.length) {k : Nat} (hk : k < o) :
    (output.take o ++ data ++ output.drop (o + sz)).get? k = output.get? k := by
  rw [List.get?_append (by simp [List.length_take]; omega)]
  rw [List.get?_append (by simp [List.length_take]; omega)]
  exact List.get?_take hk

lemma patched_get?_inside {output data : List Nat} {o sz : Nat}
    (hb : o + sz ≤ output.length) (hd : data.length = sz)
    {k : Nat} (hk1 : o ≤ k) (hk2 : k < o + sz) :
    (output.take o ++ data ++ output.drop (o + sz)).get? k = data.get? (k - o) := by
  rw [List.append_assoc]
  rw [List.get?_append_right (by simp [List.length_take]; omega)]
  rw [List.get?_append (by simp [List.length_take]; omega)]
  congr 1
  simp [List.length_take]
  omega

lemma patched_get?_after {output data : List Nat} {o sz : Nat}
    (hb : o + sz ≤ output.length) (hd : data.length = sz)
    {k : Nat} (hk : o + sz ≤ k) :
    (output.take o ++ data ++ output.drop (o + sz)).get? k = output.get? k := by
  rw [List.append_assoc]
  rw [List.get?_append_right (by simp [List.length_take]; omega)]
  rw [List.get?_append_right (by simp [List.length_take]; omega)]
  rw [List.get?_drop]
  congr 1
  simp [List.length_take]
  omega

lemma i2b_loop_snd (n : Nat) : ∀ v : Nat, (i2b_loop v n).2 = v / 2 ^ (8 * n) := by
  induction n with
  | zero => intro v; simp [i2b_loop]
  | succ m ih =>
    intro v
    show (i2b_loop (v >>> 8) m).2 = _
    rw [ih (v >>> 8), Nat.shiftRight_eq_div_pow]
    rw [Nat.div_div_eq_div_mul]
    congr 1
    rw [show 8 * (m + 1) = 8 + 8 * m by omega, Nat.pow_add]

lemma i2b_loop_fst_length (n : Nat) : ∀ v : Nat, (i2b_loop v n).1.length = n := by
  induction n with
  | zero => intro v; rfl
  | succ m ih =>
    intro v
    show ((i2b_loop (v >>> 8) m).1 ++ [v % 256]).length = m + 1
    simp [ih]

lemma i2b_loop_fst_lt (n : Nat) : ∀ v : Nat, ∀ b ∈ (i2b_loop v n).1, b < 256 := by
  induction n with
  | zero => intro v b hb; cases hb
  | succ m ih =>
    intro v b hb
    have hb' : b ∈ (i2b_loop (v >>> 8) m).1 ++ [v % 256] := hb
    rcases List.mem_append.mp hb' with hmem | hmem
    · exact ih (v >>> 8) b hmem
    · rcases List.mem_singleton.mp hmem with rfl
      exact Nat.mod_lt v (by norm_num)

lemma bytes_to_nat_be_snoc (bs : List Nat) (b : Nat) :
    bytes_to_nat_be (bs ++ [b]) = bytes_to_nat_be bs * 256 + b := by
  unfold bytes_to_nat_be
  rw [List.foldl_append]
  rfl

lemma i2b_loop_decode (n : Nat) : ∀ v : Nat,
    bytes_to_nat_be (i2b_loop v n).1 = v % 2 ^ (8 * n) := by
  induction n with
  | zero => intro v; simp [i2b_loop, bytes_to_nat_be, Nat.mod_one]
  | succ m ih =>
    intro v
    show bytes_to_nat_be ((i2b_loop (v >>> 8) m).1 ++ [v % 256]) = _
    rw [bytes_to_nat_be_snoc, ih (v >>> 8), Nat.shiftRight_eq_div_pow]
    rw [show 8 * (m + 1) = 8 + 8 * m by omega, Nat.pow_add]
    rw [show (2:Nat) ^ 8 = 256 by norm_num]
    rw [Nat.mod_mul]
    ring

lemma pow256_eq (n : Nat) : 256 ^ n = 2 ^ (8 * n) := by
  rw [show (256:Nat) = 2 ^ 8 by norm_num, ← Nat.pow_mul]

lemma int_to_bytearray_ok {v n : Nat} (h : v < 256 ^ n) :
    int_to_bytearray v n = .ok (i2b_loop v n).1 := by
  unfold int_to_bytearray
  rw [if_pos]
  rw [i2b_loop_snd]
  exact Nat.div_eq_of_lt (by rwa [pow256_eq] at h)

lemma int_to_bytearray_err {v n : Nat} (h : 256 ^ n ≤ v) :
    int_to_bytearray v n =
      .error (.assertFail "Dumped int to C array, but length not big enough") := by
  unfold int_to_bytearray
  rw [if_neg]
  rw [i2b_loop_snd]
  have : 2 ^ (8 * n) ≤ v := by rwa [pow256_eq] at h
  have hpos : 0 < 2 ^ (8 * n) := Nat.pos_pow_of_pos _ (by norm_num)
  have := Nat.one_le_div_iff hpos |>.mpr this
  omega

lemma unhexlify_length : ∀ (body : List Char) (bs : List Nat),
    unhexlify body = some bs → body.length = 2 * bs.length
  | [], bs, h => by
    cases h
    rfl
  | [c], bs, h => by
    cases h
  | a :: b :: rest, bs, h => by
    have h' : (match hex_digit_value a, hex_digit_value b, unhexlify rest with
      | some hi, some lo, some tail => some ((16 * hi + lo) :: tail)
      | _, _, _ => none) = some bs := h
    cases ha : hex_digit_value a with
    | none =>
      rw [ha] at h'
      cases hb : hex_digit_value b <;> rw [hb] at h' <;>
        cases ht : unhexlify rest <;> rw [ht] at h' <;> cases h'
    | some hi =>
      rw [ha] at h'
      cases hb : hex_digit_value b with
      | none =>
        rw [hb] at h'
        cases ht : unhexlify rest <;> rw [ht] at h' <;> cases h'
      | some lo =>
        rw [hb] at h'
        cases ht : unhexlify rest with
        | none => rw [ht] at h'; cases h'
        | some tail =>
          rw [ht] at h'
          cases h'
          have := unhexlify_length rest tail ht
          simp [List.length_cons, this]
          omega

lemma takeWhile_get? (p : Nat → Bool) :
    ∀ (l : List Nat) (k : Nat), k < (l.takeWhile p).length →
      (l.takeWhile p).get? k = l.get? k := by
  intro l
  induction l with
  | nil => intro k hk; simp [List.takeWhile] at hk
  | cons hd rest ih =>
    intro k hk
    by_cases hp : p hd
    · rw [List.takeWhile_cons_of_pos hp] at hk ⊢
      cases k with
      | zero => rfl
      | succ k' =>
        rw [List.get?_cons_succ, List.get?_cons_succ]
        exact ih k' (by simpa using hk)
    · rw [List.takeWhile_cons_of_neg hp] at hk
      cases hk

lemma takeWhile_stop (p : Nat → Bool) :
    ∀ (l : List Nat), (l.takeWhile p).length = l.length ∨
      ∃ b, l.get? ((l.takeWhile p).length) = some b ∧ p b = false := by
  intro l
  induction l with
  | nil => left; rfl
  | cons hd rest ih =>
    by_cases hp : p hd
    · rw [List.takeWhile_cons_of_pos hp]
      rcases ih with hlen | ⟨b, hb, hpb⟩
      · left; simp [hlen]
      · right
        exact ⟨b, by simpa using hb, hpb⟩
    · rw [List.takeWhile_cons_of_neg hp]
      right
      exact ⟨hd, rfl, by simpa using hp⟩

/-!
## Claim theorems
-/

/-- C1: for every container accepted by the structural reader
(`parse_sections` succeeds), a target section located by name, and
replacement bytes whose length equals the section's declared size,
`elf_update_section` succeeds and produces a container of unchanged total
length in which every byte outside `[sec.offset, sec.offset + sec.size)`
equals the original byte and the bytes inside that range equal the
replacement. -/
theorem elf_update_section_frame (output name data out : List Nat)
    (sections : List SectionTuple) (i : Nat) (sec : SectionTuple)
    (hp : parse_sections output = .ok sections)
    (hf : find_section_index sections name = (i : Int))
    (hi : sections.get? i = some sec)
    (hd : data.length = sec.size)
    (hrun : elf_update_section output name data = .ok out) :
    out.length = output.length ∧
    (∀ k, k < sec.offset ∨ sec.offset + sec.size ≤ k → out.get? k = output.get? k) ∧
    (∀ k, sec.offset ≤ k → k < sec.offset + sec.size →
      out.get? k = data.get? (k - sec.offset)) := by
  have hb : sec.offset + sec.size ≤ output.length :=
    parse_sections_bounds hp sec (List.get?_mem hi)
  have heq := elf_update_section_of_found data hp hf hi
  rw [if_neg (by simp [hd])] at heq
  rw [heq] at hrun
  cases hrun
  refine ⟨patched_length hb hd, ?_, ?_⟩
  · intro k hk
    rcases hk with hk | hk
    · exact patched_get?_before hb hk
    · exact patched_get?_after hb hd hk
  · intro k hk1 hk2
    exact patched_get?_inside hb hd hk1 hk2

/-- C1 witness: patching the `.sig` section of the concrete container
`testElf` keeps its length. -/
theorem elf_update_section_frame_witness : testPatched.length = testElf.length :=
  (elf_update_section_frame testElf sigNameBytes testData testPatched testSections 1
    ⟨1, sigNameBytes, 58, 4⟩ (by decide) (by decide) (by decide) (by decide) (by decide)).1

/-- C2: for every located target section, if the replacement's length
differs from the section's declared size the patch fails with the
size-mismatch assertion and the file on disk is unmodified; if the lengths
are equal no size-mismatch error is raised. -/
theorem elf_update_section_size_guard (disk name data : List Nat)
    (sections : List SectionTuple) (i : Nat) (sec : SectionTuple)
    (hp : parse_sections disk = .ok sections)
    (hf : find_section_index sections name = (i : Int))
    (hi : sections.get? i = some sec) :
    (data.length ≠ sec.size →
      elf_update_section disk name data =
        .error (.assertFail "Size of signature data file does not match size of section") ∧
      elf_update_section_disk disk name data = disk) ∧
    (data.length = sec.size →
      elf_update_section disk name data ≠
        .error (.assertFail "Size of signature data file does not match size of section")) := by
  have heq := elf_update_section_of_found data hp hf hi
  constructor
  · intro hne
    rw [heq, if_pos hne]
    refine ⟨rfl, ?_⟩
    unfold elf_update_section_disk
    rw [heq, if_pos hne]
  · intro he
    rw [heq, if_neg (by simp [he])]
    simp

/-- C2 witness: replacing the 4-byte `.sig` section of `testElf` with
3 bytes leaves the disk contents unchanged. -/
theorem elf_update_section_size_guard_witness :
    elf_update_section_disk testElf sigNameBytes [9, 9, 9] = testElf :=
  ((elf_update_section_size_guard testElf sigNameBytes [9, 9, 9] testSections 1
    ⟨1, sigNameBytes, 58, 4⟩ (by decide) (by decide) (by decide)).1 (by decide)).2

/-- C6: if no section's resolved name equals the target the lookup yields
`-1` and `elf_update_section` fails with the section-not-found assertion;
if one or more sections match, the LAST matching section in table order is
silently selected (no ambiguity error exists) and patching proceeds on
that section. -/
theorem find_section_last_match (output name data : List Nat)
    (sections : List SectionTuple)
    (hp : parse_sections output = .ok sections) :
    ((∀ s ∈ sections, s.name ≠ name) →
      find_section_index sections name = -1 ∧
      elf_update_section output name data = .error (.assertFail "Section not found in ELF")) ∧
    (∀ i s, sections.get? i = some s → s.name = name →
      (∀ j t, sections.get? j = some t → i < j → t.name ≠ name) →
      find_section_index sections name = (i : Int) ∧
      (data.length = s.size →
        elf_update_section output name data =
          .ok (output.take s.offset ++ data ++ output.drop (s.offset + s.size)))) := by
  constructor
  · intro hnone
    have hlm : last_match name sections = none := (last_match_none_iff name sections).mpr hnone
    have hfi : find_section_index sections name = -1 := by
      rw [find_section_index_eq, hlm]
    exact ⟨hfi, elf_update_section_not_found hp hfi⟩
  · intro i s hget hname hmax
    have hlm : last_match name sections = some i :=
      last_match_complete name sections i s hget hname hmax
    have hfi : find_section_index sections name = (i : Int) := by
      rw [find_section_index_eq, hlm]
    refine ⟨hfi, fun hd => ?_⟩
    rw [elf_update_section_of_found data hp hfi hget, if_neg (by simp [hd])]

/-- C6 witness: in `testElfDup`, which has two sections named `.sig`
(indices 1 and 2), the lookup selects index 2 — the last match. -/
theorem find_section_last_match_witness :
    find_section_index testDupSections sigNameBytes = (2 : Int) :=
  ((find_section_last_match testElfDup sigNameBytes [7, 7, 7, 7] testDupSections
      (by decide)).2 2 ⟨1, sigNameBytes, 62, 4⟩ (by decide) (by decide)
      (by
        intro j t hjt hlt
        have hj : j < 3 := by
          by_contra hge
          rw [List.get?_eq_none.mpr (by simpa using Nat.le_of_not_lt hge)] at hjt
          cases hjt
        omega)).1

/-- C3 (evaluates the code at the failing input): `testElfBE` has valid
magic, class and version but its endianness byte (offset 5) is 2, i.e.
big-endian — yet `parse_sections` accepts it, because the source's line 79
asserts `ei_class == 1` instead of `ei_data == 1`.  The claim that a
non-little-endian container is rejected is therefore false of the code. -/
theorem endianness_not_validated :
    testElfBE.take 4 = [0x7f, 0x45, 0x4c, 0x46] ∧
    testElfBE.get? 4 = some 1 ∧
    testElfBE.get? 5 = some 2 ∧
    testElfBE.get? 6 = some 1 ∧
    parse_sections testElfBE = .ok testSections := by decide

/-- C4 (evaluates the code at the failing input): `testElfStrndxEq` has
`e_shnum = 2` and `e_shstrndx = 2`, an out-of-range section index, and its
header otherwise passes every check.  Because line 92 of the source tests
`e_shstrndx <= e_shnum` instead of `<`, the format check passes and the
reader instead dies with an uncaught `IndexError` when the name-resolution
loop indexes `sections[e_shstrndx]`. -/
theorem strtab_index_equal_count_not_rejected :
    elf_read_le testElfStrndxEq 0x30 2 = some 2 ∧
    elf_read_le testElfStrndxEq 0x32 2 = some 2 ∧
    parse_sections testElfStrndxEq = .error .indexError ∧
    parse_sections testElfStrndxEq ≠
      .error (.assertFail "Section name index > number of sections") := by decide

/-- C5 counterexample: in `testElfOverrun` the string table is section 0
with byte range `[52, 58)`, and the resolved name of section 1
(`name_offset = 1`) is 6 bytes long, so its last byte comes from container
index `52 + 1 + 5 = 58`, which lies OUTSIDE the string-table bounds: the
scan does not stop at the string-table section's end, refuting the claim.
The spec-modelled bounded scan (`resolve_name_bounded`) gives a strictly
shorter name. -/
theorem resolve_name_crosses_strtab_bounds :
    parse_sections testElfOverrun = .ok testOverrunSections ∧
    (testOverrunSections.get? 0).map (fun s => (s.offset, s.size)) = some (52, 6) ∧
    (testOverrunSections.get? 1).map SectionTuple.name = some [46, 115, 105, 103, 88, 89] ∧
    resolve_name testElfOverrun 52 1 = [46, 115, 105, 103, 88, 89] ∧
    resolve_name_bounded testElfOverrun 52 6 1 = [46, 115, 105, 103, 88] ∧
    resolve_name testElfOverrun 52 1 ≠ resolve_name_bounded testElfOverrun 52 6 1 ∧
    testElfOverrun.get? 58 = some 89 ∧ ¬ (58 < 52 + 6) := by decide

/-- C5 (amended): the resolved section name consists of the container's
bytes starting at `strtabOffset + nameOffset` up to (excluding) the first
zero terminator, where the scan runs to the END of the container (not just
to the string-table section's bounds): every byte of the name is nonzero,
byte `k` of the name is container byte `strtabOffset + nameOffset + k`,
and the name ends either at the container's end or at a zero byte. -/
theorem resolve_name_characterization (output : List Nat) (strtabOffset nameOffset : Nat) :
    (∀ b ∈ resolve_name output strtabOffset nameOffset, b ≠ 0) ∧
    (∀ k, k < (resolve_name output strtabOffset nameOffset).length →
      (resolve_name output strtabOffset nameOffset).get? k =
        output.get? (strtabOffset + nameOffset + k)) ∧
    (output.length ≤
        strtabOffset + nameOffset + (resolve_name output strtabOffset nameOffset).length ∨
      output.get?
        (strtabOffset + nameOffset + (resolve_name output strtabOffset nameOffset).length) =
        some 0) := by
  refine ⟨?_, ?_, ?_⟩
  · intro b hb
    have := List.mem_takeWhile_imp hb
    simpa using this
  · intro k hk
    unfold resolve_name at hk ⊢
    rw [takeWhile_get? _ _ k hk, List.get?_drop]
  · unfold resolve_name
    rcases takeWhile_stop (fun b => decide (b ≠ 0))
        (output.drop (strtabOffset + nameOffset)) with hlen | ⟨b, hb, hpb⟩
    · left
      rw [show (List.takeWhile (fun b => decide (b ≠ 0))
            (output.drop (strtabOffset + nameOffset))) =
          (output.drop (strtabOffset + nameOffset)).takeWhile (fun b => b ≠ 0) from rfl] at hlen
      rw [hlen, List.length_drop]
      omega
    · right
      have hb' : output.get? (strtabOffset + nameOffset +
          ((output.drop (strtabOffset + nameOffset)).takeWhile (fun b => b ≠ 0)).length) =
          some b := by
        rw [← List.get?_drop]
        exact hb
      have hbz : b = 0 := by simpa using hpb
      rw [hb', hbz]

/-- C5 amended-claim witness, at the concrete container `testElfOverrun`,
string-table offset 52 and name offset 1: the sixth name byte is the
container byte at index 58, and the name ends at a zero byte. -/
theorem resolve_name_characterization_witness :
    (resolve_name testElfOverrun 52 1).get? 5 = testElfOverrun.get? (52 + 1 + 5) ∧
    (testElfOverrun.length ≤ 52 + 1 + (resolve_name testElfOverrun 52 1).length ∨
      testElfOverrun.get? (52 + 1 + (resolve_name testElfOverrun 52 1).length) = some 0) :=
  ⟨(resolve_name_characterization testElfOverrun 52 1).2.1 5 (by decide),
   (resolve_name_characterization testElfOverrun 52 1).2.2⟩

/-- C7: for `r, s < 2^224` the local signing path assembles exactly the
60-byte block `0x01`, three zero padding bytes, the 28-byte big-endian
encoding of `r`, then the 28-byte big-endian encoding of `s`; if `r` or
`s` does not fit in 28 bytes, assembly fails with the too-large assertion
instead of producing a block. -/
theorem local_signature_block_format (r s : Nat) :
    (r < 2 ^ 224 → s < 2 ^ 224 →
      local_signature_block r s =
        .ok (1 :: (0 :: 0 :: 0 :: ((i2b_loop r (224 / 8)).1 ++ (i2b_loop s (224 / 8)).1))) ∧
      (1 :: (0 :: 0 :: 0 :: ((i2b_loop r (224 / 8)).1 ++ (i2b_loop s (224 / 8)).1))).length = 60 ∧
      (i2b_loop r (224 / 8)).1.length = 28 ∧
      (i2b_loop s (224 / 8)).1.length = 28 ∧
      bytes_to_nat_be (i2b_loop r (224 / 8)).1 = r ∧
      bytes_to_nat_be (i2b_loop s (224 / 8)).1 = s ∧
      (∀ b ∈ (i2b_loop r (224 / 8)).1, b < 256) ∧
      (∀ b ∈ (i2b_loop s (224 / 8)).1, b < 256)) ∧
    (2 ^ 224 ≤ r ∨ 2 ^ 224 ≤ s →
      local_signature_block r s =
        .error (.assertFail "Dumped int to C array, but length not big enough")) := by
  have hpow : (256 : Nat) ^ (224 / 8) = 2 ^ 224 := by
    rw [show (224 / 8 : Nat) = 28 from rfl, pow256_eq]
  constructor
  · intro hr hs
    have hr' : r < 256 ^ (224 / 8) := by rw [hpow]; exact hr
    have hs' : s < 256 ^ (224 / 8) := by rw [hpow]; exact hs
    unfold local_signature_block
    rw [int_to_bytearray_ok hr', int_to_bytearray_ok hs']
    refine ⟨rfl, ?_, i2b_loop_fst_length _ _, i2b_loop_fst_length _ _, ?_, ?_, ?_, ?_⟩
    · simp [List.length_append, i2b_loop_fst_length]
    · rw [i2b_loop_decode]
      exact Nat.mod_eq_of_lt (by rw [show 8 * (224 / 8) = 224 from rfl]; exact hr)
    · rw [i2b_loop_decode]
      exact Nat.mod_eq_of_lt (by rw [show 8 * (224 / 8) = 224 from rfl]; exact hs)
    · exact i2b_loop_fst_lt _ _
    · exact i2b_loop_fst_lt _ _
  · intro hbig
    unfold local_signature_block
    rcases hbig with hr | hs
    · rw [int_to_bytearray_err (by rw [hpow]; exact hr)]
    · by_cases hr' : r < 256 ^ (224 / 8)
      · rw [int_to_bytearray_ok hr', int_to_bytearray_err (by rw [hpow]; exact hs)]
      · rw [int_to_bytearray_err (Nat.le_of_not_lt hr')]

/-- C7 witness: the block assembled for `(r, s) = (5, 7)`. -/
theorem local_signature_block_format_witness :
    local_signature_block 5 7 =
      .ok (1 :: (0 :: 0 :: 0 :: ((i2b_loop 5 (224 / 8)).1 ++ (i2b_loop 7 (224 / 8)).1))) ∧
    (1 :: (0 :: 0 :: 0 :: ((i2b_loop 5 (224 / 8)).1 ++ (i2b_loop 7 (224 / 8)).1))).length = 60 ∧
    (i2b_loop 5 (224 / 8)).1.length = 28 ∧
    (i2b_loop 7 (224 / 8)).1.length = 28 ∧
    bytes_to_nat_be (i2b_loop 5 (224 / 8)).1 = 5 ∧
    bytes_to_nat_be (i2b_loop 7 (224 / 8)).1 = 7 := by
  have h := (local_signature_block_format 5 7).1 (by norm_num) (by norm_num)
  exact ⟨h.1, h.2.1, h.2.2.1, h.2.2.2.1, h.2.2.2.2.1, h.2.2.2.2.2.1⟩

/-- C8: for every `v < 256^n`, `int_to_bytearray` produces exactly `n`
bytes whose big-endian value is `v` (round trip); and decoding the `r` and
`s` fields (bytes 4–31 and 32–59) of a locally assembled signature block
recovers the same `(r, s)` that were encoded. -/
theorem int_to_bytearray_roundtrip (v n r s : Nat)
    (hv : v < 256 ^ n) (hr : r < 2 ^ 224) (hs : s < 2 ^ 224) :
    int_to_bytearray v n = .ok (i2b_loop v n).1 ∧
    (i2b_loop v n).1.length = n ∧
    bytes_to_nat_be (i2b_loop v n).1 = v ∧
    (local_signature_block r s).map
      (fun blk =>
        (bytes_to_nat_be ((blk.drop 4).take 28), bytes_to_nat_be ((blk.drop 4).drop 28))) =
      .ok (r, s) := by
  have hpow : (256 : Nat) ^ (224 / 8) = 2 ^ 224 := by
    rw [show (224 / 8 : Nat) = 28 from rfl, pow256_eq]
  refine ⟨int_to_bytearray_ok hv, i2b_loop_fst_length _ _, ?_, ?_⟩
  · rw [i2b_loop_decode]
    exact Nat.mod_eq_of_lt (by rwa [← pow256_eq])
  · have hr' : r < 256 ^ (224 / 8) := by rw [hpow]; exact hr
    have hs' : s < 256 ^ (224 / 8) := by rw [hpow]; exact hs
    unfold local_signature_block
    rw [int_to_bytearray_ok hr', int_to_bytearray_ok hs']
    simp only [Except.map]
    have hdrop : ((1 : Nat) :: (0 :: 0 :: 0 ::
        ((i2b_loop r (224 / 8)).1 ++ (i2b_loop s (224 / 8)).1))).drop 4 =
        (i2b_loop r (224 / 8)).1 ++ (i2b_loop s (224 / 8)).1 := rfl
    rw [hdrop]
    have hlenr : (i2b_loop r (224 / 8)).1.length = 28 := i2b_loop_fst_length _ _
    rw [show (28 : Nat) = (i2b_loop r (224 / 8)).1.length from hlenr.symm]
    rw [List.take_left, List.drop_left]
    rw [i2b_loop_decode, i2b_loop_decode]
    rw [Nat.mod_eq_of_lt (by rw [show 8 * (224 / 8) = 224 from rfl]; exact hr)]
    rw [Nat.mod_eq_of_lt (by rw [show 8 * (224 / 8) = 224 from rfl]; exact hs)]

/-- C8 witness: round trip at `v = 300`, `n = 2` and block-field recovery
at `(r, s) = (1, 2)`. -/
theorem int_to_bytearray_roundtrip_witness :
    int_to_bytearray 300 2 = .ok (i2b_loop 300 2).1 ∧
    (i2b_loop 300 2).1.length = 2 ∧
    bytes_to_nat_be (i2b_loop 300 2).1 = 300 ∧
    (local_signature_block 1 2).map
      (fun blk =>
        (bytes_to_nat_be ((blk.drop 4).take 28), bytes_to_nat_be ((blk.drop 4).drop 28))) =
      .ok (1, 2) :=
  int_to_bytearray_roundtrip 300 2 1 2 (by norm_num) (by norm_num) (by norm_num)

/-- C9: a remote response body that hex-decodes to `bs` is rejected with
the signature-length assertion whenever `bs` is not exactly 60 bytes
(regardless of content, since the decoded length determines the raw length
`2 * 60`), and is accepted verbatim as the block when it is. -/
theorem remote_signature_length_guard (body : List Char) (bs : List Nat)
    (h : unhexlify body = some bs) :
    (bs.length ≠ 60 → remote_signature_from_body body =
      .error (.assertFail "Signature returned by service has wrong length")) ∧
    (bs.length = 60 → remote_signature_from_body body = .ok bs) := by
  have hlen := unhexlify_length body bs h
  constructor
  · intro hne
    unfold remote_signature_from_body
    rw [if_neg (by omega)]
  · intro he
    unfold remote_signature_from_body
    rw [if_pos (by omega), h]

/-- C9 witness: the two-character body `00` decodes to the single byte 0,
not 60 bytes, and is rejected with the signature-length assertion. -/
theorem remote_signature_length_guard_witness :
    remote_signature_from_body ['0', '0'] =
      .error (.assertFail "Signature returned by service has wrong length") :=
  (remote_signature_length_guard ['0', '0'] [0] (by decide)).1 (by decide)

/-- C10: with no `auth` credential in the environment, the remote signing
path fails with the missing-credential assertion and its event trace is
empty — no network request is ever issued, so the credential check
strictly precedes any network call.  The second conjunct records what
happens when the credential IS present: the path fails with the line-207
`AttributeError` (`StringIO.StringIO()` after `from io import StringIO`),
still with an empty trace, before `curl.perform()` could run; the distinct
errors show the credential check at line 204 fires first. -/
theorem remote_sign_missing_credential (url cred : String) (http_code : Nat)
    (body : List Char) :
    remote_sign url none http_code body =
      (.error (.assertFail "Signing service credentials auth not exported from environment"),
        []) ∧
    remote_sign url (some cred) http_code body = (.error .attributeError, []) :=
  ⟨rfl, rfl⟩
